import Mathlib

/-!
Shallow embedding of the OpenSnake firmware
(`src/Firmware/OpenSnake/OpenSnake.ino`).

The EEPROM is modelled as a total byte store `Nat → Nat`; `EEPROM.write`
becomes pointwise function update.  The non-void C function
`get_start_mem_location`, whose control can fall off the end without
returning, is embedded as an `Option`-valued function (`none` on the
fall-off paths).  Playback (`play_track`), recording (`record_track`,
`record_event`), track selection (`increment_track`), the button poll
(`check_buttons`), the first-boot reset check in `setup`, and the main
loop's long-press gate are each translated directly from the source.
-/

namespace OpenSnake

/-- The EEPROM byte store: address to byte value. -/
abbrev Store := Nat → Nat

/-- `EEPROM.write(a, v)`: pointwise update of the store. -/
def write (rom : Store) (a v : Nat) : Store :=
  fun x => if x = a then v else rom x

/-! Event-kind constants (`#define YES 1` etc. in the source). -/

def YES : Nat := 1
def NO : Nat := 2
def SNAKE : Nat := 3
def END : Nat := 99

/-! User-input command constants (`#define RECORD_CMD 1` etc.). -/

def RECORD_CMD : Nat := 1
def PLAY_CMD : Nat := 2
def TRACK_CMD : Nat := 3
def YES_CMD : Nat := 4
def NO_CMD : Nat := 5
def SNAKE_CMD : Nat := 6

/-- `get_start_mem_location(byte track)` from the source: a chain of
`if (track == k) return r;` statements with no final return, so for a
track value outside 1..6 control falls off the end; the embedding
returns `none` there. -/
def get_start_mem_location (track : Nat) : Option Nat :=
  if track = 1 then some 1
  else if track = 2 then some 100
  else if track = 3 then some 200
  else if track = 4 then some 300
  else if track = 5 then some 400
  else if track = 6 then some 500
  else none

/-- The actuator actions `yes()`, `no()`, `snake()` (external
LED/buzzer/servo collaborators). -/
inductive Action where
  | yes
  | no
  | snake
deriving DecidableEq

/-- The `switch (event_type)` in `play_track`: kinds `YES`/`NO`/`SNAKE`
call the corresponding actuator; `END` and the default (invalid) case
perform no actuator call. -/
def dispatch (k : Nat) : Option Action :=
  if k = YES then some Action.yes
  else if k = NO then some Action.no
  else if k = SNAKE then some Action.snake
  else none

/-- The playback scan loop of `play_track`:
`for (pos = start; pos <= start + 99; pos += 2)` visits at most 50
(delay, kind) pairs, reading the delay at `pos` and the kind at
`pos + 1`; the pair is visited (delay wait + switch dispatch) and then
the loop breaks iff the kind is `END`.  `fuel` counts the remaining
loop iterations (50 at the start of the region). -/
def play_visit (rom : Store) (s : Nat) : Nat → List (Nat × Nat)
  | 0 => []
  | fuel + 1 =>
    let d := rom s
    let k := rom (s + 1)
    if k = END then [(d, k)]
    else (d, k) :: play_visit rom (s + 2) fuel

/-- The sequence of actuator calls made by the playback scan: the
switch dispatches each visited kind, `END` and invalid kinds producing
no call. -/
def play_actions (rom : Store) (s : Nat) (fuel : Nat) : List Action :=
  (play_visit rom s fuel).filterMap (fun p => dispatch p.2)

/-- `play_track()`: reads the current track from address 0, resolves
the region start, and scans the region (50 pairs of fuel).  Returns
the visited (delay, kind) pairs, or `none` if the track byte has no
defined region. -/
def play_track (rom : Store) : Option (List (Nat × Nat)) :=
  (get_start_mem_location (rom 0)).map (fun s => play_visit rom s 50)

/-- `set_track(byte track)`: persist the track number at address 0. -/
def set_track (rom : Store) (track : Nat) : Store :=
  write rom 0 track

/-- `increment_track()`: read the current track byte from address 0,
increment it (byte arithmetic, mod 256), wrap 6 back to 1, and persist
the result via `set_track`. -/
def increment_track (rom : Store) : Store :=
  let track := rom 0
  let track2 := (track + 1) % 256
  let track3 := if track2 = 6 then 1 else track2
  set_track rom track3

/-- The delay clamping in `record_track`: the elapsed milliseconds
since the last press are divided by 100 (0.1 s units) and capped at
255 before being truncated to a byte. -/
def clamp_delay (ms : Nat) : Nat :=
  let d := ms / 100
  if d > 255 then 255 else d

/-- `record_event(track, event_delay, event_type, recording_length)`:
resolves the track's region start, computes the byte offset
`recording_length * 2`, and writes the delay byte then the kind byte.
`none` when the track has no defined region. -/
def record_event (rom : Store) (track event_delay event_type recording_length : Nat) :
    Option Store :=
  (get_start_mem_location track).map (fun start =>
    let offset := recording_length * 2
    let loc := start + offset
    write (write rom loc event_delay) (loc + 1) event_type)

/-- The capture loop of `record_track`.  A recording session is
abstracted as the list of observed presses, each press carrying the
elapsed milliseconds `millis() - last_press_time` at the moment it is
handled, together with the resolved command.  `len` is the
`recording_length` byte.  Yes/No/Snake presses record an event and
increment `len` (byte arithmetic); a second Record press records an
`END` event and ends the session; any other command records nothing. -/
def record_loop (track : Nat) : Store → List (Nat × Nat) → Nat → Option Store
  | rom, [], _ => some rom
  | rom, (ms, cmd) :: rest, len =>
    let d := clamp_delay ms
    if cmd = YES_CMD then
      (record_event rom track d YES len).bind
        (fun rom2 => record_loop track rom2 rest ((len + 1) % 256))
    else if cmd = NO_CMD then
      (record_event rom track d NO len).bind
        (fun rom2 => record_loop track rom2 rest ((len + 1) % 256))
    else if cmd = SNAKE_CMD then
      (record_event rom track d SNAKE len).bind
        (fun rom2 => record_loop track rom2 rest ((len + 1) % 256))
    else if cmd = RECORD_CMD then
      record_event rom track d END len
    else
      record_loop track rom rest len

/-- `record_track()`: reads the current track from address 0 once,
then runs the capture loop with `recording_length = 0`. -/
def record_track (rom : Store) (presses : List (Nat × Nat)) : Option Store :=
  record_loop (rom 0) rom presses 0

/-- The six physical button lines.  A field is `true` when the button
is physically pressed (its active-low line reads LOW, i.e.
`digitalRead(...) == false` in the source). -/
structure Buttons where
  record : Bool
  play : Bool
  trackSel : Bool
  yes : Bool
  no : Bool
  snake : Bool
deriving DecidableEq

/-- The two long-press hold counters (`recordButtonCounter`,
`incrementTrackButtonCounter`).  In the source they are `int`s that
start at 0, are reset to 0 on release, and otherwise grow by one per
tick, so they stay non-negative and far below the `int` range in
every scenario considered here; they are modelled as `Nat`. -/
structure BtnState where
  recordButtonCounter : Nat
  incrementTrackButtonCounter : Nat
deriving DecidableEq

/-- `check_buttons()`: first reset either hold counter whose physical
line reads released, then resolve at most one command by the
priority chain Play, Record, SelectTrack, Yes, No, Snake,
incrementing the matching hold counter in the Record / SelectTrack
branches.  Returns the resolved command (`none` models
`userInput == 0` / return `false`) and the new counter state. -/
def check_buttons (b : Buttons) (s : BtnState) : Option Nat × BtnState :=
  let rc := if b.record = false then 0 else s.recordButtonCounter
  let tc := if b.trackSel = false then 0 else s.incrementTrackButtonCounter
  if b.play then (some PLAY_CMD, ⟨rc, tc⟩)
  else if b.record then (some RECORD_CMD, ⟨rc + 1, tc⟩)
  else if b.trackSel then (some TRACK_CMD, ⟨rc, tc + 1⟩)
  else if b.yes then (some YES_CMD, ⟨rc, tc⟩)
  else if b.no then (some NO_CMD, ⟨rc, tc⟩)
  else if b.snake then (some SNAKE_CMD, ⟨rc, tc⟩)
  else (none, ⟨rc, tc⟩)

/-- The nine byte pairs plus terminator of `example_track_1`. -/
def example_track_1 : List Nat :=
  [56, YES, 51, YES, 2, YES, 72, NO, 67, NO, 43, NO, 55, YES, 1, YES, 15, SNAKE, 0, END]

/-- The track-restoring loop of `factory_reset()`: writes byte `i` of
the example track to address `1 + i`, breaking after a byte equal to
`END` has been written. -/
def write_track (rom : Store) : List Nat → Nat → Store
  | [], _ => rom
  | b :: rest, i =>
    let rom2 := write rom (1 + i) b
    if b = END then rom2 else write_track rom2 rest (i + 1)

/-- `factory_reset()`: stores default track number 1 at address 0 and
restores `example_track_1` starting at address 1 (LED blinking and
the release debounce are external side effects with no store
footprint). -/
def factory_reset (rom : Store) : Store :=
  write_track (write rom 0 1) example_track_1 0

/-- The first-boot check at the top of `setup()`: if the sentinel
cell at address 1023 reads the erased value 255, run
`factory_reset()` and then write 0 to the sentinel.  The returned
flag records whether the reset ran. -/
def first_boot (rom : Store) : Store × Bool :=
  if rom 1023 = 255 then ((write (factory_reset rom) 1023 0), true)
  else (rom, false)

/-- One tick of `loop()` restricted to its Record dispatch: after
`check_buttons()`, `record_track()` is invoked iff the resolved
command is `RECORD_CMD` and `recordButtonCounter > 200`. -/
def record_dispatch (b : Buttons) (s : BtnState) : Bool × BtnState :=
  let r := check_buttons b s
  (decide (r.1 = some RECORD_CMD) && decide (r.2.recordButtonCounter > 200), r.2)

/-- Whether `record_track()` fires at least once while `loop()` polls
the given sequence of button snapshots (one snapshot per 10 ms
tick); the model polls through the sequence without executing the
dispatched recording session. -/
def fires_during : List Buttons → BtnState → Bool
  | [], _ => false
  | b :: rest, s =>
    let r := record_dispatch b s
    r.1 || fires_during rest r.2

/-- Button snapshot with only the Record line pressed. -/
def recHeld : Buttons := ⟨true, false, false, false, false, false⟩

/-- Button snapshot with every line released. -/
def allReleased : Buttons := ⟨false, false, false, false, false, false⟩

/-- A store with track 1 selected at address 0 and all other cells 0. -/
def rom1 : Store := fun a => if a = 0 then 1 else 0

/-- Membership of an address in the 100-byte region of a slot. -/
def region_mem (slot a : Nat) : Prop :=
  ∃ r, get_start_mem_location slot = some r ∧ r ≤ a ∧ a ≤ r + 99

/-- The value `increment_track` stores into the current-track cell, as
a function of the old cell value. -/
def next_track (t : Nat) : Nat :=
  let t2 := (t + 1) % 256
  if t2 = 6 then 1 else t2

/-- A concrete store: track 1 selected, region bytes
10, YES, 20, END, rest zero. -/
def romA : Store := fun a =>
  if a = 0 then 1 else if a = 1 then 10 else if a = 2 then YES
  else if a = 3 then 20 else if a = 4 then END else 0

/-- The kind byte that `record_track`'s branch for a given command
records: Yes/No/Snake commands record the matching event kind; other
commands record nothing (placeholder 0, never written). -/
def cmd_kind (c : Nat) : Nat :=
  if c = YES_CMD then YES
  else if c = NO_CMD then NO
  else if c = SNAKE_CMD then SNAKE
  else 0

/-- The actuator action corresponding to a pressed command. -/
def cmd_action (c : Nat) : Option Action :=
  if c = YES_CMD then some Action.yes
  else if c = NO_CMD then some Action.no
  else if c = SNAKE_CMD then some Action.snake
  else none

@[simp] theorem write_same (rom : Store) (a v : Nat) : write rom a v a = v := by
  simp [write]

theorem write_ne (rom : Store) (a v x : Nat) (h : x ≠ a) : write rom a v x = rom x := by
  simp [write, h]

theorem increment_track_cell (rom : Store) : (increment_track rom) 0 = next_track (rom 0) := rfl

theorem increment_track_iter (n : Nat) :
    ∀ rom : Store, (increment_track^[n] rom) 0 = next_track^[n] (rom 0) := by
  induction n with
  | zero => intro rom; rfl
  | succ n ih =>
    intro rom
    rw [Function.iterate_succ_apply, Function.iterate_succ_apply, ih, increment_track_cell]

/-- C5: restricted to current-track values in {1,2,3,4,5},
`increment_track` maps 5 to 1 and any other slot to slot + 1, the new
value is persisted to the current-track cell (address 0), and applying
it 5 times returns to the starting slot. -/
theorem C5_increment_cycle (rom : Store) (h1 : 1 ≤ rom 0) (h5 : rom 0 ≤ 5) :
    (increment_track rom) 0 = (if rom 0 = 5 then 1 else rom 0 + 1) ∧
    (increment_track^[5] rom) 0 = rom 0 := by
  rw [increment_track_cell, increment_track_iter]
  generalize rom 0 = t at h1 h5 ⊢
  interval_cases t <;> exact ⟨by decide, by decide⟩

/-- Witness for C5 at the concrete store `rom1` (current track 1). -/
theorem C5_increment_cycle_witness :
    (increment_track rom1) 0 = 2 ∧ (increment_track^[5] rom1) 0 = 1 :=
  C5_increment_cycle rom1 (by decide) (by decide)

/-- C6: each `check_buttons` tick reports at most one command, chosen
by the fixed priority Play > Record > SelectTrack > Yes > No > Snake
over the physically pressed lines; the Record (resp. SelectTrack)
hold counter is reset to zero whenever its line is observed released,
regardless of the reported command, and is incremented by one exactly
on ticks resolving to its command. -/
theorem C6_poll_priority_and_counters (b : Buttons) (s : BtnState) :
    (check_buttons b s).1 =
      (if b.play then some PLAY_CMD
       else if b.record then some RECORD_CMD
       else if b.trackSel then some TRACK_CMD
       else if b.yes then some YES_CMD
       else if b.no then some NO_CMD
       else if b.snake then some SNAKE_CMD
       else none) ∧
    ((check_buttons b s).2).recordButtonCounter =
      (if b.record = false then 0
       else if (check_buttons b s).1 = some RECORD_CMD then s.recordButtonCounter + 1
       else s.recordButtonCounter) ∧
    ((check_buttons b s).2).incrementTrackButtonCounter =
      (if b.trackSel = false then 0
       else if (check_buttons b s).1 = some TRACK_CMD then s.incrementTrackButtonCounter + 1
       else s.incrementTrackButtonCounter) := by
  obtain ⟨r, p, t, y, n, k⟩ := b
  cases r <;> cases p <;> cases t <;> cases y <;> cases n <;> cases k <;>
    simp [check_buttons, PLAY_CMD, RECORD_CMD, TRACK_CMD, YES_CMD, NO_CMD, SNAKE_CMD]

/-- C7: if the sentinel cell (address 1023) holds the erased value 255
at boot, the first-boot path runs the factory reset and leaves the
sentinel at a non-255 value; a subsequent boot on the resulting store
does not run the reset. -/
theorem C7_first_boot_reset (rom : Store) (h : rom 1023 = 255) :
    (first_boot rom).2 = true ∧
    (first_boot rom).1 1023 ≠ 255 ∧
    first_boot ((first_boot rom).1) = ((first_boot rom).1, false) := by
  have hfb : first_boot rom = ((write (factory_reset rom) 1023 0), true) := by
    simp [first_boot, h]
  set x := (first_boot rom).1 with hx
  have h0 : x 1023 = 0 := by rw [hx, hfb]; simp [write]
  refine ⟨by rw [hfb], by rw [h0]; decide, ?_⟩
  simp [first_boot, h0]

/-- Witness for C7 at the fully erased store. -/
theorem C7_first_boot_reset_witness :
    (first_boot (fun _ => 255)).2 = true ∧
    (first_boot (fun _ => 255)).1 1023 ≠ 255 ∧
    first_boot ((first_boot (fun _ => 255)).1) = ((first_boot (fun _ => 255)).1, false) :=
  C7_first_boot_reset (fun _ => 255) rfl

/-- C9: during playback, a kind byte that is not `YES`, `NO`, `SNAKE`
or `END` is a no-op: the pair is visited, no actuator call is made
for it, and the scan continues with the next 2-byte pair instead of
aborting. -/
theorem C9_invalid_kind_noop (rom : Store) (s fuel : Nat)
    (h1 : rom (s + 1) ≠ YES) (h2 : rom (s + 1) ≠ NO)
    (h3 : rom (s + 1) ≠ SNAKE) (h4 : rom (s + 1) ≠ END) :
    play_visit rom s (fuel + 1) = (rom s, rom (s + 1)) :: play_visit rom (s + 2) fuel ∧
    play_actions rom s (fuel + 1) = play_actions rom (s + 2) fuel := by
  constructor
  · simp only [play_visit, if_neg h4]
  · simp only [play_actions, play_visit, if_neg h4, List.filterMap_cons]
    have hd : dispatch (rom (s + 1)) = none := by
      simp [dispatch, h1, h2, h3]
    rw [hd]

/-- Witness for C9: a store whose every byte is the invalid kind 7. -/
theorem C9_invalid_kind_noop_witness :
    play_visit (fun _ => 7) 0 2 = ((7 : Nat), (7 : Nat)) :: play_visit (fun _ => 7) 2 1 ∧
    play_actions (fun _ => 7) 0 2 = play_actions (fun _ => 7) 2 1 :=
  C9_invalid_kind_noop (fun _ => 7) 0 1 (by decide) (by decide) (by decide) (by decide)

theorem get_start_eq_none (t : Nat) (h : t = 0 ∨ 7 ≤ t) : get_start_mem_location t = none := by
  unfold get_start_mem_location
  split_ifs <;> first | rfl | omega

/-- C10: `get_start_mem_location` is defined exactly on track values
1..6, with values 1, 100, 200, 300, 400, 500; outside 1..6 it has no
defined result (`none` in the embedding), and playback and recording
driven by such a current-track byte have no defined target region. -/
theorem C10_start_location_domain :
    (get_start_mem_location 1 = some 1 ∧ get_start_mem_location 2 = some 100 ∧
     get_start_mem_location 3 = some 200 ∧ get_start_mem_location 4 = some 300 ∧
     get_start_mem_location 5 = some 400 ∧ get_start_mem_location 6 = some 500) ∧
    (∀ t : Nat, t = 0 ∨ 7 ≤ t → get_start_mem_location t = none) ∧
    (∀ rom : Store, rom 0 = 0 ∨ 7 ≤ rom 0 →
      play_track rom = none ∧ ∀ ms : Nat, record_track rom [(ms, RECORD_CMD)] = none) := by
  refine ⟨by decide, fun t ht => get_start_eq_none t ht, ?_⟩
  intro rom h
  have hg : get_start_mem_location (rom 0) = none := get_start_eq_none _ h
  constructor
  · simp [play_track, hg]
  · intro ms
    simp [record_track, record_loop, RECORD_CMD, YES_CMD, NO_CMD, SNAKE_CMD, record_event, hg]

/-- Witness for C10 at track byte 7. -/
theorem C10_start_location_domain_witness :
    get_start_mem_location 7 = none ∧ play_track (fun _ => 7) = none ∧
    record_track (fun _ => 7) [(0, RECORD_CMD)] = none :=
  ⟨C10_start_location_domain.2.1 7 (Or.inr (by decide)),
   (C10_start_location_domain.2.2 (fun _ => 7) (Or.inr (by decide))).1,
   (C10_start_location_domain.2.2 (fun _ => 7) (Or.inr (by decide))).2 0⟩

/-- C3 counterexample: slots 1 and 2 are distinct slots in 1..5, yet
address 100 lies in both slot regions — the intervals
[region_start(1), region_start(1)+99] = [1, 100] and
[region_start(2), region_start(2)+99] = [100, 199] overlap. -/
theorem C3_region_overlap_counterexample :
    (1 : Nat) ≠ 2 ∧ 1 ≤ (1 : Nat) ∧ (1 : Nat) ≤ 5 ∧ 1 ≤ (2 : Nat) ∧ (2 : Nat) ≤ 5 ∧
    region_mem 1 100 ∧ region_mem 2 100 := by
  refine ⟨by decide, by decide, by decide, by decide, by decide, ?_, ?_⟩
  · exact ⟨1, rfl, by decide, by decide⟩
  · exact ⟨100, rfl, by decide, by decide⟩

/-- C3 amended: for distinct slots s1, s2 in 1..5, the regions
[region_start(s1), region_start(s1)+99] and
[region_start(s2), region_start(s2)+99] share no address, except the
pair of slots 1 and 2, whose regions share exactly the single address
100. -/
theorem C3_regions_almost_disjoint (s1 s2 : Nat)
    (h1 : 1 ≤ s1) (h2 : s1 ≤ 5) (h3 : 1 ≤ s2) (h4 : s2 ≤ 5) (hne : s1 ≠ s2) (a : Nat) :
    (region_mem s1 a ∧ region_mem s2 a) ↔ (min s1 s2 = 1 ∧ max s1 s2 = 2 ∧ a = 100) := by
  interval_cases s1 <;> interval_cases s2 <;>
    simp_all [region_mem, get_start_mem_location] <;> omega

/-- Witness for the amended C3, instantiated at slots 1 and 2 and
address 100. -/
theorem C3_regions_almost_disjoint_witness :
    (region_mem 1 100 ∧ region_mem 2 100) ↔
      (min 1 2 = 1 ∧ max 1 2 = 2 ∧ (100 : Nat) = 100) :=
  C3_regions_almost_disjoint 1 2 (by decide) (by decide) (by decide) (by decide) (by decide) 100

/-- C4: evaluating the recorder at the failing input.  A session whose
terminating Record press arrives 200 ms after the session start
writes the End pair as (2, END) — the delay byte holds the clamped
elapsed time, not the 0 required by the claim and by the track format
documented in the source ("all tracks must have a last event delay of
0, followed by an event type END"). -/
theorem C4_end_delay_not_zero :
    (record_track rom1 [(200, RECORD_CMD)]).map (fun r => (r 1, r 2)) = some (2, END) ∧
    (2 : Nat) ≠ 0 := by
  constructor
  · rfl
  · decide

theorem pair_fun_shift (rom : Store) (s : Nat) :
    (fun i => (rom (s + 2 + 2 * i), rom (s + 2 + 2 * i + 1))) =
      ((fun i => (rom (s + 2 * i), rom (s + 2 * i + 1))) ∘ Nat.succ) := by
  funext i
  simp only [Function.comp_apply]
  have e1 : s + 2 + 2 * i = s + 2 * Nat.succ i := by omega
  rw [e1]

/-- If the first well-formed `END` kind sits at pair index `j < fuel`,
the playback scan visits exactly the pairs 0..j, in order. -/
theorem play_visit_first_end (rom : Store) :
    ∀ j s fuel : Nat, j < fuel →
      rom (s + 2 * j + 1) = END →
      (∀ i, i < j → rom (s + 2 * i + 1) ≠ END) →
      play_visit rom s fuel =
        (List.range (j + 1)).map (fun i => (rom (s + 2 * i), rom (s + 2 * i + 1))) := by
  intro j
  induction j with
  | zero =>
    intro s fuel hj hend _
    obtain ⟨f, rfl⟩ : ∃ f, fuel = f + 1 := ⟨fuel - 1, by omega⟩
    have h1 : rom (s + 1) = END := by
      have e : s + 2 * 0 + 1 = s + 1 := by ring
      rwa [e] at hend
    simp [play_visit, h1, List.range_succ]
  | succ j ih =>
    intro s fuel hj hend hno
    obtain ⟨f, rfl⟩ : ∃ f, fuel = f + 1 := ⟨fuel - 1, by omega⟩
    have h0 : rom (s + 1) ≠ END := by
      have e : s + 2 * 0 + 1 = s + 1 := by ring
      have := hno 0 (Nat.succ_pos j)
      rwa [e] at this
    have hend2 : rom (s + 2 + 2 * j + 1) = END := by
      have e : s + 2 + 2 * j + 1 = s + 2 * (j + 1) + 1 := by ring
      rw [e]; exact hend
    have hno2 : ∀ i, i < j → rom (s + 2 + 2 * i + 1) ≠ END := by
      intro i hi
      have e : s + 2 + 2 * i + 1 = s + 2 * (i + 1) + 1 := by ring
      rw [e]; exact hno (i + 1) (by omega)
    have step : play_visit rom s (f + 1) = (rom s, rom (s + 1)) :: play_visit rom (s + 2) f := by
      simp only [play_visit, if_neg h0]
    rw [step, ih (s + 2) f (by omega) hend2 hno2]
    conv_rhs => rw [List.range_succ_eq_map]
    simp only [List.map_cons, List.map_map]
    rw [pair_fun_shift]
    congr 1

/-- If no `END` kind occurs in the first `fuel` pairs, the playback
scan visits exactly `fuel` pairs and stops. -/
theorem play_visit_no_end (rom : Store) :
    ∀ fuel s : Nat, (∀ i, i < fuel → rom (s + 2 * i + 1) ≠ END) →
      play_visit rom s fuel =
        (List.range fuel).map (fun i => (rom (s + 2 * i), rom (s + 2 * i + 1))) := by
  intro fuel
  induction fuel with
  | zero => intro s _; simp [play_visit]
  | succ f ih =>
    intro s hno
    have h0 : rom (s + 1) ≠ END := by
      have e : s + 2 * 0 + 1 = s + 1 := by ring
      have := hno 0 (Nat.succ_pos f)
      rwa [e] at this
    have hno2 : ∀ i, i < f → rom (s + 2 + 2 * i + 1) ≠ END := by
      intro i hi
      have e : s + 2 + 2 * i + 1 = s + 2 * (i + 1) + 1 := by ring
      rw [e]; exact hno (i + 1) (by omega)
    simp only [play_visit, if_neg h0]
    rw [ih (s + 2) hno2]
    conv_rhs => rw [List.range_succ_eq_map]
    simp only [List.map_cons, List.map_map]
    rw [pair_fun_shift]
    congr 1

/-- C1: for a track whose region holds a well-formed `END` at pair
index j < 50, `play_track` performs one linear scan from offset 0 in
2-byte steps, visiting exactly pairs 0..j in order; the actuator
calls are the dispatches of the kinds of pairs 0..j-1 (Yes/No/Snake
kinds dispatch their action, others nothing) with no actuator call
for the End pair.  If no `END` occurs within the region's 50 pairs,
the scan stops silently after exactly 50 pairs. -/
theorem C1_play_linear_scan (rom : Store) (track s : Nat)
    (h0 : rom 0 = track) (hs : get_start_mem_location track = some s) :
    (∀ j, j < 50 → rom (s + 2 * j + 1) = END →
      (∀ i, i < j → rom (s + 2 * i + 1) ≠ END) →
      play_track rom = some ((List.range (j + 1)).map
        (fun i => (rom (s + 2 * i), rom (s + 2 * i + 1)))) ∧
      play_actions rom s 50 =
        ((List.range j).map (fun i => rom (s + 2 * i + 1))).filterMap dispatch) ∧
    ((∀ i, i < 50 → rom (s + 2 * i + 1) ≠ END) →
      play_track rom = some ((List.range 50).map
        (fun i => (rom (s + 2 * i), rom (s + 2 * i + 1))))) := by
  have hpt : play_track rom = some (play_visit rom s 50) := by
    simp [play_track, h0, hs]
  constructor
  · intro j hj hend hno
    have hv := play_visit_first_end rom j s 50 hj hend hno
    refine ⟨by rw [hpt, hv], ?_⟩
    unfold play_actions
    rw [hv, List.range_succ, List.map_append, List.filterMap_append]
    have hdend : dispatch (rom (s + 2 * j + 1)) = none := by rw [hend]; decide
    have hlast : List.filterMap (fun p => dispatch p.2)
        (List.map (fun i => (rom (s + 2 * i), rom (s + 2 * i + 1))) [j]) = [] := by
      simp [List.filterMap_cons, hdend]
    rw [hlast, List.append_nil]
    simp only [List.filterMap_map]
    rfl
  · intro hno
    rw [hpt, play_visit_no_end rom 50 s hno]

/-- Witness for C1 on `romA`, whose first well-formed `END` is at pair
index 1. -/
theorem C1_play_linear_scan_witness :
    play_track romA = some ((List.range 2).map
      (fun i => (romA (1 + 2 * i), romA (1 + 2 * i + 1)))) ∧
    play_actions romA 1 50 =
      ((List.range 1).map (fun i => romA (1 + 2 * i + 1))).filterMap dispatch :=
  (C1_play_linear_scan romA 1 1 rfl (by decide)).1 1 (by decide) (by decide) (by decide)

theorem fires_during_replicate (n : Nat) :
    ∀ c t : Nat, fires_during (List.replicate n recHeld) ⟨c, t⟩ =
      decide (1 ≤ n ∧ 201 ≤ c + n) := by
  induction n with
  | zero => intro c t; simp [fires_during]
  | succ n ih =>
    intro c t
    have hcb : check_buttons recHeld ⟨c, t⟩ = (some RECORD_CMD, ⟨c + 1, 0⟩) := rfl
    simp only [List.replicate_succ, fires_during, record_dispatch, hcb]
    rw [ih (c + 1) 0]
    simp only [decide_True, Bool.true_and]
    by_cases h : 200 < c + 1
    · have d1 : decide (c + 1 > 200) = true := decide_eq_true h
      have d2 : decide (1 ≤ n + 1 ∧ 201 ≤ c + (n + 1)) = true :=
        decide_eq_true ⟨by omega, by omega⟩
      rw [d1, d2, Bool.true_or]
    · have d1 : decide (c + 1 > 200) = false := decide_eq_false h
      rw [d1, Bool.false_or, decide_eq_decide]
      omega

/-- C8 amended: in the loop's long-press state machine the threshold
is 201 consecutive poll ticks (`recordButtonCounter > 200`, about
2.0 s at the loop's 10 ms cadence), not 3 seconds: a continuous hold
of n ticks triggers `record_track` iff n ≥ 201, so a 2.9 s hold
(290 ticks) triggers it while a 2.0 s hold (200 ticks) does not. -/
theorem C8_long_press_threshold (n : Nat) :
    fires_during (List.replicate n recHeld) ⟨0, 0⟩ = decide (201 ≤ n) := by
  rw [fires_during_replicate n 0 0, decide_eq_decide]
  omega

/-- C8 counterexample: holding Record continuously for 290 poll ticks
(2.9 s at the 10 ms cadence) and then releasing does trigger
`record_track` (it fires already at tick 201), contradicting the
claim that a 2.9 s hold never triggers it. -/
theorem C8_hold_290_ticks_fires :
    fires_during (List.replicate 290 recHeld ++ [allReleased]) ⟨0, 0⟩ = true := by
  decide

theorem dispatch_cmd_kind (c : Nat) : dispatch (cmd_kind c) = cmd_action c := by
  by_cases h4 : c = YES_CMD
  · subst h4; rfl
  by_cases h5 : c = NO_CMD
  · subst h5; rfl
  by_cases h6 : c = SNAKE_CMD
  · subst h6; rfl
  simp [cmd_kind, cmd_action, dispatch, h4, h5, h6, YES, NO, SNAKE]

theorem cmd_kind_ne_end (c : Nat) : cmd_kind c ≠ END := by
  unfold cmd_kind YES NO SNAKE END
  split_ifs <;> omega

theorem range_map_eq_list_map {α β : Type} (l : List α) (f : Nat → β) (g : α → β)
    (h : ∀ i, ∀ hi : i < l.length, f i = g l[i]) :
    (List.range l.length).map f = l.map g := by
  apply List.ext_getElem
  · simp
  · intro i h1 h2
    simp only [List.getElem_map, List.getElem_range]
    exact h i (by simpa using h2)

/-- After running the capture loop on content presses followed by the
terminating Record press, the store holds the encoded pairs at
consecutive 2-byte offsets, the `END` pair right after them, and all
addresses below the write window are untouched. -/
theorem record_loop_writes (track s e : Nat) (hs : get_start_mem_location track = some s) :
    ∀ presses : List (Nat × Nat), ∀ (rom : Store) (len : Nat),
      (∀ p ∈ presses, p.2 = YES_CMD ∨ p.2 = NO_CMD ∨ p.2 = SNAKE_CMD) →
      len + presses.length + 1 ≤ 256 →
      ∃ rom2, record_loop track rom (presses ++ [(e, RECORD_CMD)]) len = some rom2 ∧
        (∀ a, a < s + 2 * len → rom2 a = rom a) ∧
        (∀ i, ∀ hi : i < presses.length,
          rom2 (s + 2 * (len + i)) = clamp_delay (presses[i]).1 ∧
          rom2 (s + 2 * (len + i) + 1) = cmd_kind (presses[i]).2) ∧
        rom2 (s + 2 * (len + presses.length)) = clamp_delay e ∧
        rom2 (s + 2 * (len + presses.length) + 1) = END := by
  intro presses
  induction presses with
  | nil =>
    intro rom len _ _
    refine ⟨write (write rom (s + len * 2) (clamp_delay e)) (s + len * 2 + 1) END,
      ?_, ?_, ?_, ?_, ?_⟩
    · simp [record_loop, RECORD_CMD, YES_CMD, NO_CMD, SNAKE_CMD, record_event, hs]
    · intro a ha
      rw [write_ne _ _ _ _ (by omega), write_ne _ _ _ _ (by omega)]
    · intro i hi
      simp at hi
    · have ea : s + 2 * (len + List.length ([] : List (Nat × Nat))) = s + len * 2 := by
        simp; omega
      rw [ea, write_ne _ _ _ _ (by omega), write_same]
    · have ea : s + 2 * (len + List.length ([] : List (Nat × Nat))) + 1 = s + len * 2 + 1 := by
        simp; omega
      rw [ea, write_same]
  | cons p rest ih =>
    intro rom len hc hcap
    obtain ⟨ms, cmd⟩ := p
    have hcmd : cmd = YES_CMD ∨ cmd = NO_CMD ∨ cmd = SNAKE_CMD := by
      have := hc (ms, cmd) (List.mem_cons_self _ _)
      simpa using this
    have hrest : ∀ p ∈ rest, p.2 = YES_CMD ∨ p.2 = NO_CMD ∨ p.2 = SNAKE_CMD :=
      fun q hq => hc q (List.mem_cons_of_mem _ hq)
    have hlen : rest.length + 1 = (List.cons (ms, cmd) rest).length := by simp
    have hmod : (len + 1) % 256 = len + 1 := Nat.mod_eq_of_lt (by simp at hcap; omega)
    have hrec : record_loop track rom ((ms, cmd) :: (rest ++ [(e, RECORD_CMD)])) len =
        record_loop track
          (write (write rom (s + len * 2) (clamp_delay ms)) (s + len * 2 + 1) (cmd_kind cmd))
          (rest ++ [(e, RECORD_CMD)]) (len + 1) := by
      rcases hcmd with h | h | h <;>
        (subst h;
         simp [record_loop, YES_CMD, NO_CMD, SNAKE_CMD, RECORD_CMD,
               record_event, hs, hmod, cmd_kind])
    obtain ⟨rom2, hr2, hlow, hmid, hend1, hend2⟩ :=
      ih (write (write rom (s + len * 2) (clamp_delay ms)) (s + len * 2 + 1) (cmd_kind cmd))
        (len + 1) hrest (by simp at hcap ⊢; omega)
    refine ⟨rom2, ?_, ?_, ?_, ?_, ?_⟩
    · rw [List.cons_append, hrec, hr2]
    · intro a ha
      rw [hlow a (by omega), write_ne _ _ _ _ (by omega), write_ne _ _ _ _ (by omega)]
    · intro i hi
      cases i with
      | zero =>
        constructor
        · have ea : s + 2 * (len + 0) = s + len * 2 := by omega
          rw [ea, hlow _ (by omega), write_ne _ _ _ _ (by omega), write_same]
          simp
        · have ea : s + 2 * (len + 0) + 1 = s + len * 2 + 1 := by omega
          rw [ea, hlow _ (by omega), write_same]
          simp
      | succ i =>
        have hi2 : i < rest.length := by simpa using hi
        have hm := hmid i hi2
        constructor
        · have ea : s + 2 * (len + (i + 1)) = s + 2 * (len + 1 + i) := by omega
          rw [ea, hm.1]
          simp
        · have ea : s + 2 * (len + (i + 1)) + 1 = s + 2 * (len + 1 + i) + 1 := by omega
          rw [ea, hm.2]
          simp
    · have ea : s + 2 * (len + ((ms, cmd) :: rest).length) = s + 2 * (len + 1 + rest.length) := by
        simp; omega
      rw [ea, hend1]
    · have ea : s + 2 * (len + ((ms, cmd) :: rest).length) + 1 =
          s + 2 * (len + 1 + rest.length) + 1 := by
        simp; omega
      rw [ea, hend2]

/-- C2 amended: for a recording session of at most 50 Yes/No/Snake
presses followed by a terminating Record press on a slot in 1..5,
playback of that slot immediately afterwards produces exactly the
pressed kind sequence (as kinds of the visited content pairs and as
actuator calls), and each played delay equals the recorded elapsed
time converted to 0.1 s units and saturated at 255. -/
theorem C2_record_playback_roundtrip (rom : Store) (track e : Nat)
    (presses : List (Nat × Nat))
    (h1 : 1 ≤ track) (h5 : track ≤ 5) (h0 : rom 0 = track)
    (hc : ∀ p ∈ presses, p.2 = YES_CMD ∨ p.2 = NO_CMD ∨ p.2 = SNAKE_CMD)
    (hn : presses.length ≤ 50) :
    ∃ rom2 vis,
      record_track rom (presses ++ [(e, RECORD_CMD)]) = some rom2 ∧
      play_track rom2 = some vis ∧
      (vis.take presses.length).map Prod.snd = presses.map (fun p => cmd_kind p.2) ∧
      (vis.take presses.length).map Prod.fst = presses.map (fun p => clamp_delay p.1) ∧
      vis.filterMap (fun p => dispatch p.2) = presses.filterMap (fun p => cmd_action p.2) := by
  obtain ⟨s, hs, hs1⟩ : ∃ s, get_start_mem_location track = some s ∧ 1 ≤ s := by
    interval_cases track <;> exact ⟨_, rfl, by norm_num⟩
  obtain ⟨rom2, hrec, hlow, hmid, hend1, hend2⟩ :=
    record_loop_writes track s e hs presses rom 0 hc (by omega)
  have hrt : record_track rom (presses ++ [(e, RECORD_CMD)]) = some rom2 := by
    rw [record_track, h0]
    exact hrec
  have h02 : rom2 0 = track := by
    rw [hlow 0 (by omega), h0]
  have hpt : play_track rom2 = some (play_visit rom2 s 50) := by
    simp [play_track, h02, hs]
  have hmid2 : ∀ i, ∀ hi : i < presses.length,
      rom2 (s + 2 * i) = clamp_delay (presses[i]).1 ∧
      rom2 (s + 2 * i + 1) = cmd_kind (presses[i]).2 := by
    intro i hi
    have hm := hmid i hi
    constructor
    · have ea : s + 2 * i = s + 2 * (0 + i) := by omega
      rw [ea]; exact hm.1
    · have ea : s + 2 * i + 1 = s + 2 * (0 + i) + 1 := by omega
      rw [ea]; exact hm.2
  have hkne : ∀ i, i < presses.length → rom2 (s + 2 * i + 1) ≠ END := by
    intro i hi
    rw [(hmid2 i hi).2]
    exact cmd_kind_ne_end _
  have hE1 : (List.range presses.length).map
        (fun i => (rom2 (s + 2 * i), rom2 (s + 2 * i + 1))) =
      presses.map (fun p => (clamp_delay p.1, cmd_kind p.2)) := by
    apply range_map_eq_list_map
    intro i hi
    rw [(hmid2 i hi).1, (hmid2 i hi).2]
  have hfun : ((fun p : Nat × Nat => dispatch p.2) ∘
        (fun p : Nat × Nat => (clamp_delay p.1, cmd_kind p.2))) =
      (fun p : Nat × Nat => cmd_action p.2) :=
    funext fun p => dispatch_cmd_kind p.2
  rcases Nat.lt_or_ge presses.length 50 with hlt | hge
  · have hend2' : rom2 (s + 2 * presses.length + 1) = END := by
      have ea : s + 2 * presses.length + 1 = s + 2 * (0 + presses.length) + 1 := by omega
      rw [ea]; exact hend2
    have hv : play_visit rom2 s 50 =
        (List.range (presses.length + 1)).map
          (fun i => (rom2 (s + 2 * i), rom2 (s + 2 * i + 1))) :=
      play_visit_first_end rom2 presses.length s 50 hlt hend2' hkne
    have htake : ((List.range (presses.length + 1)).map
          (fun i => (rom2 (s + 2 * i), rom2 (s + 2 * i + 1)))).take presses.length =
        (List.range presses.length).map
          (fun i => (rom2 (s + 2 * i), rom2 (s + 2 * i + 1))) := by
      rw [← List.map_take, List.take_range, Nat.min_eq_left (by omega)]
    refine ⟨rom2,
      (List.range (presses.length + 1)).map
        (fun i => (rom2 (s + 2 * i), rom2 (s + 2 * i + 1))),
      hrt, by rw [hpt, hv], ?_, ?_, ?_⟩
    · rw [htake, hE1, List.map_map]
      rfl
    · rw [htake, hE1, List.map_map]
      rfl
    · rw [List.range_succ, List.map_append, List.filterMap_append]
      have hd : dispatch (rom2 (s + 2 * presses.length + 1)) = none := by
        rw [hend2']; decide
      have hnone : (List.map (fun i => (rom2 (s + 2 * i), rom2 (s + 2 * i + 1)))
          [presses.length]).filterMap (fun p => dispatch p.2) = [] := by
        simp [List.filterMap_cons, hd]
      rw [hnone, List.append_nil, hE1, List.filterMap_map, hfun]
  · have h50 : presses.length = 50 := by omega
    rw [h50] at hE1
    have hv : play_visit rom2 s 50 =
        (List.range 50).map (fun i => (rom2 (s + 2 * i), rom2 (s + 2 * i + 1))) :=
      play_visit_no_end rom2 50 s (fun i hi => hkne i (by omega))
    have htake : ((List.range 50).map
          (fun i => (rom2 (s + 2 * i), rom2 (s + 2 * i + 1)))).take presses.length =
        (List.range 50).map (fun i => (rom2 (s + 2 * i), rom2 (s + 2 * i + 1))) :=
      List.take_of_length_le (by simp [h50])
    refine ⟨rom2,
      (List.range 50).map (fun i => (rom2 (s + 2 * i), rom2 (s + 2 * i + 1))),
      hrt, by rw [hpt, hv], ?_, ?_, ?_⟩
    · rw [htake, hE1, List.map_map]
      rfl
    · rw [htake, hE1, List.map_map]
      rfl
    · rw [hE1, List.filterMap_map, hfun]

/-- Witness for the amended C2: one Yes press 100 ms into the session,
then the terminating Record press, on slot 1 over the zeroed store. -/
theorem C2_record_playback_roundtrip_witness :
    ∃ rom2 vis,
      record_track rom1 ([((100 : Nat), YES_CMD)] ++ [((0 : Nat), RECORD_CMD)]) = some rom2 ∧
      play_track rom2 = some vis ∧
      (vis.take 1).map Prod.snd = [YES] ∧
      (vis.take 1).map Prod.fst = [1] ∧
      vis.filterMap (fun p => dispatch p.2) = [Action.yes] :=
  C2_record_playback_roundtrip rom1 1 0 [(100, YES_CMD)]
    (by decide) (by decide) rfl (by decide) (by decide)

/-- C2 counterexample: a session of 51 Yes presses (each with elapsed
time 0) followed by the terminating Record press on slot 1.  Playback
of the slot afterwards performs only 50 yes actions — the region's
50-pair capacity truncates the 51-press sequence, so playback does
not reproduce the pressed kind sequence. -/
theorem C2_roundtrip_overflow_counterexample :
    ((record_track rom1 (List.replicate 51 ((0 : Nat), YES_CMD) ++
        [((0 : Nat), RECORD_CMD)])).bind play_track).map
      (fun vis => vis.filterMap (fun p => dispatch p.2)) =
      some (List.replicate 50 Action.yes) ∧
    (List.replicate 51 ((0 : Nat), YES_CMD)).filterMap (fun p => cmd_action p.2) =
      List.replicate 51 Action.yes := by
  constructor
  · decide
  · decide

end OpenSnake
